import Mathlib

/-!
Verification of the EdgeX exchange client (src/edgex/edgex_api_client.py)
against its natural-language specification.

The Python client is shallowly embedded: every stateful method becomes a
pure Lean function over an explicit `ClientState`; fallible code returns
`Except` (a Python `KeyError`/`ValueError` becomes `.error`); callbacks are
recorded as an invocation trace rather than executed; the external signer
and hasher (starkware `sign`, `Web3.keccak`) are injected parameters; float
wait times (1.0, 2.0, ... seconds) are embedded as exact rationals, which
agrees with IEEE float arithmetic on every value the claims mention.
-/

namespace EdgeX

/-- An inbound WebSocket frame, the shape consumed by `process_data` and
`handle_message`: top-level `type`, optional `channel`, optional
`content.event` / `content.data`, optional `time`.  Python's
`data.get("type", "")` defaults give the empty-string defaults here; the
payload under `content.data` is opaque to the client, so it is embedded as
a `String` (absent = `none`). -/
structure Frame where
  type : String
  channel : String := ""
  event : String := ""
  data : Option String := none
  time : String := ""
  deriving DecidableEq, Repr

/-- An outbound WebSocket frame (subscribe / ping / pong). -/
structure OutFrame where
  type : String
  channel : String := ""
  time : String := ""
  deriving DecidableEq, Repr

/-- Argument handed to a callback: either just a data payload
(`event_data`) or the full frame (the quote channel receives the whole
message). -/
inductive CallbackArg where
  | payload (d : Option String)
  | frame (f : Frame)
  deriving DecidableEq, Repr

/-- One recorded callback invocation: which registry
(`event_callbacks` or `channel_callbacks`), which key, which argument. -/
inductive Invocation where
  | eventCb (key : String) (d : Option String)
  | channelCb (key : String) (arg : CallbackArg)
  deriving DecidableEq, Repr

/-- The 12 private event kinds whose deques `__init__` creates under
`memory["private"]`. -/
def privateEventKinds : List String :=
  ["ACCOUNT_UPDATE", "DEPOSIT_UPDATE", "WITHDRAW_UPDATE",
   "TRANSFER_IN_UPDATE", "TRANSFER_OUT_UPDATE", "ORDER_UPDATE",
   "FORCE_WITHDRAW_UPDATE", "FORCE_TRADE_UPDATE", "FUNDING_SETTLEMENT",
   "ORDER_FILL_FEE_INCOME", "START_LIQUIDATING", "FINISH_LIQUIDATING"]

/-- The 3 public categories whose deques `__init__` creates under
`memory["public"]`. -/
def publicCategories : List String := ["kline", "depth", "trades"]

/-- Mutable state of one `EdgeXAPIClient` instance.  A Python
`deque(maxlen=max_memory)` is embedded as a `List String` whose head is the
deque's left end (index 0, the most recently stored value); the two memory
dicts are association lists keyed by event kind / category; the callback
dicts are represented by their key sets (the handlers themselves are
opaque, invocations are traced instead). -/
structure ClientState where
  save_memory : Bool
  max_memory : Nat
  ping_interval : Nat
  memoryPublic : List (String × List String)
  memoryPrivate : List (String × List String)
  event_callbacks : List String
  channel_callbacks : List String
  deriving DecidableEq, Repr

/-- `EdgeXAPIClient.__init__`: fresh empty deques for the three public
categories and the twelve private event kinds, empty callback registries,
`ping_interval = 30`. -/
def initState (save_memory : Bool) (max_memory : Nat) : ClientState where
  save_memory := save_memory
  max_memory := max_memory
  ping_interval := 30
  memoryPublic := publicCategories.map (fun k => (k, []))
  memoryPrivate := privateEventKinds.map (fun k => (k, []))
  event_callbacks := []
  channel_callbacks := []

/-- `register_event_callback`: record the key (re-registration overwrites,
so the key set just gains the key). -/
def register_event_callback (st : ClientState) (event : String) : ClientState :=
  { st with event_callbacks := if st.event_callbacks.contains event then
      st.event_callbacks else event :: st.event_callbacks }

/-- `register_channel_callback`: record the key. -/
def register_channel_callback (st : ClientState) (channel : String) : ClientState :=
  { st with channel_callbacks := if st.channel_callbacks.contains channel then
      st.channel_callbacks else channel :: st.channel_callbacks }

/-- Does `sub` occur at the head of `s`? -/
def leadMatch : List Char → List Char → Bool
  | [], _ => true
  | _ :: _, [] => false
  | a :: as, b :: bs => a = b && leadMatch as bs

/-- Does `sub` occur anywhere inside `s`?  (`re.search` with a plain-text
pattern succeeds exactly when the pattern occurs as a substring.) -/
def hasSub (sub : List Char) : List Char → Bool
  | [] => sub.isEmpty
  | c :: rest => leadMatch sub (c :: rest) || hasSub sub rest

/-- Case-insensitive substring test, the semantics of
`re.search(pattern, s, re.IGNORECASE)` for the all-lowercase literal
patterns the client uses (the regex `trades?` matches exactly when `trade`
occurs). -/
def searchIgnoreCase (pat : String) (s : String) : Bool :=
  hasSub pat.data (s.data.map Char.toLower)

/-- `classify_channel`: case-insensitive substring match with priority
kline, then depth, then trade/trades, else unknown. -/
def classify_channel (channel_name : String) : String :=
  if searchIgnoreCase "kline" channel_name then "kline"
  else if searchIgnoreCase "depth" channel_name then "depth"
  else if searchIgnoreCase "trade" channel_name then "trades"
  else "unknown"

/-- `deque(maxlen).appendleft v` on a deque currently holding `q` (head =
left end): prepend and discard from the right end beyond `maxlen`. -/
def dequeAppendLeft (maxlen : Nat) (v : String) (q : List String) : List String :=
  List.take maxlen (v :: q)

/-- Key membership in an association list (Python `k in dict`). -/
def hasKey (m : List (String × List String)) (k : String) : Bool :=
  m.any (fun kv => kv.1 = k)

/-- Point update of an association list. -/
def updateAssoc (m : List (String × List String)) (k : String)
    (f : List String → List String) : List (String × List String) :=
  m.map (fun kv => if kv.1 = k then (kv.1, f kv.2) else kv)

/-- `store_data(category, event, data)`: no-op when `data is None`;
otherwise `self.memory[category][event].appendleft(data)`, which raises
`KeyError` (here `.error`) when `event` is not a key of the chosen dict
(or `category` is neither of the two dict keys). -/
def store_data (st : ClientState) (category event : String) (d : Option String) :
    Except String ClientState :=
  match d with
  | none => .ok st
  | some v =>
    if category = "public" then
      if hasKey st.memoryPublic event then
        .ok { st with memoryPublic :=
              updateAssoc st.memoryPublic event (dequeAppendLeft st.max_memory v) }
      else .error event
    else if category = "private" then
      if hasKey st.memoryPrivate event then
        .ok { st with memoryPrivate :=
              updateAssoc st.memoryPrivate event (dequeAppendLeft st.max_memory v) }
      else .error event
    else .error category

/-- `process_data`: dispatch an inbound frame by its `type`, returning the
updated state and the trace of callback invocations, or `.error k` when the
Python code would raise `KeyError k` out of `store_data`. -/
def process_data (st : ClientState) (f : Frame) :
    Except String (ClientState × List Invocation) :=
  if f.type = "connected" ∨ f.type = "subscribed" then
    .ok (st, [])
  else if f.type = "trade-event" then
    let event_type := f.event
    let event_data := f.data
    if event_type = "Snapshot" then
      .ok (st, [])
    else
      let calls : List Invocation :=
        if st.event_callbacks.contains event_type then
          [.eventCb event_type event_data] else []
      if st.save_memory then
        match store_data st "private" event_type event_data with
        | .ok st' => .ok (st', calls)
        | .error k => .error k
      else
        .ok (st, calls)
  else if f.type = "quote-event" then
    .ok (st, if st.channel_callbacks.contains "quote" then
      [.channelCb "quote" (.frame f)] else [])
  else if f.type = "payload" then
    let category := classify_channel f.channel
    let calls : List Invocation :=
      if st.channel_callbacks.contains category then
        [.channelCb category (.payload f.data)] else []
    if st.save_memory && hasKey st.memoryPublic category then
      match store_data st "public" category f.data with
      | .ok st' => .ok (st', calls)
      | .error k => .error k
    else
      .ok (st, calls)
  else
    .ok (st, [])

/-! ## RetryingTransport: `send_api_request` -/

/-- Outcome of one HTTP attempt as seen by the `try` block: either the
parsed response, or an exception (transport error, bad JSON, ...). -/
inductive AttemptResult where
  | success (resp : String)
  | failure (err : String)
  deriving DecidableEq, Repr

/-- Observable outcome of one `send_api_request` call: the value returned
or exception raised, the number of attempts made, and the sequence of
`time.sleep` durations (in seconds, embedded exactly as rationals). -/
structure SendOutcome where
  result : Except String String
  numAttempts : Nat
  sleeps : List ℚ
  deriving Repr

/-- The `while attempt <= retries` loop of `send_api_request`, entered at
attempt counter `attempt`.  On an exception the counter is incremented; if
it now exceeds `retries` the exception is re-raised, else the loop sleeps
`min (base_wait * attempt) max_wait` and retries. -/
def sendLoop (outcomes : Nat → AttemptResult) (bw mw : ℚ) (retries : Nat)
    (attempt : Nat) : SendOutcome :=
  match outcomes attempt with
  | .success r => { result := .ok r, numAttempts := 1, sleeps := [] }
  | .failure e =>
    if h : attempt + 1 > retries then
      { result := .error e, numAttempts := 1, sleeps := [] }
    else
      let w := min (bw * ((attempt + 1 : ℕ) : ℚ)) mw
      let rest := sendLoop outcomes bw mw retries (attempt + 1)
      { result := rest.result, numAttempts := rest.numAttempts + 1,
        sleeps := w :: rest.sleeps }
termination_by retries + 1 - attempt
decreasing_by omega

/-- The exception message of `raise ValueError(f"Unsupported HTTP method: ...")`. -/
def unsupportedMsg (m : String) : String := "Unsupported HTTP method: " ++ m

/-- Python's `str.upper()` for the ASCII method names involved. -/
def strUpper (s : String) : String :=
  String.mk (s.data.map Char.toUpper)

/-- The method dispatch inside the `try` block: `GET`/`POST`
(case-insensitively, via `.upper()`) go to the network, any other method
raises `ValueError` — which the surrounding `except Exception` catches
like any transport failure. -/
def methodSupported (m : String) : Bool :=
  strUpper m = "GET" || strUpper m = "POST"

/-- One attempt of `send_api_request`: the body of the `try` block, with
the network's behaviour on the `n`-th attempt injected as `net n`. -/
def attemptOnce (net : Nat → AttemptResult) (m : String) (n : Nat) : AttemptResult :=
  if methodSupported m then net n else .failure (unsupportedMsg m)

/-- `send_api_request(http_method, ..., retries, base_wait, max_wait)`,
as a function of the injected per-attempt network behaviour. -/
def send_api_request (net : Nat → AttemptResult) (http_method : String)
    (retries : Nat) (base_wait max_wait : ℚ) : SendOutcome :=
  sendLoop (attemptOnce net http_method) base_wait max_wait retries 0

/-! ## SignatureEngine: `generate_signature_headers` -/

/-- The legal lowercase hexadecimal digits. -/
def hexCharset : List Char := "0123456789abcdef".data

/-- Minimal lowercase hexadecimal representation of `n` (Python `f"{n:x}"`). -/
def hexRepr (n : Nat) : List Char :=
  Nat.toDigits 16 n

/-- Python `f"{n:064x}"`: lowercase hex, left-padded with `0` to 64 digits
(never truncated). -/
def hexPad64 (n : Nat) : String :=
  String.mk (List.replicate (64 - (hexRepr n).length) '0' ++ hexRepr n)

/-- The curve-order constant the message hash is reduced against. -/
def K_MODULUS : Nat :=
  0x0800000000000010ffffffffffffffffb781126dcae7b2321e66a241adc64d2f

/-- The trusted external signer: starkware `sign` and
`private_key_to_ec_point_on_stark_curve` (only the point's `y` coordinate
is consumed). -/
structure ExternalSigner where
  sign : Nat → Nat → Nat × Nat
  pubY : Nat → Nat

/-- The pair of headers `generate_signature_headers` returns. -/
structure SignedHeaders where
  signature : String
  timestamp : String
  deriving DecidableEq, Repr

/-- Python's `<=` on strings: lexicographic comparison of the character
code points. -/
def charListLe : List Char → List Char → Bool
  | [], _ => true
  | _ :: _, [] => false
  | a :: as, b :: bs =>
    if a.toNat < b.toNat then true
    else if a.toNat = b.toNat then charListLe as bs
    else false

/-- String order used by Python's `sorted` on the query-parameter keys. -/
def strKeyLe (a b : String) : Bool := charListLe a.data b.data

/-- `sorted_query`: `"&".join(f"{k}={query_params[k]}" for k in
sorted(query_params))` — keys in ascending order, each rendered `k=v`.
The dict is embedded as an association list with distinct keys. -/
def sortedQuery (qp : List (String × String)) : String :=
  String.intercalate "&"
    (((qp.map Prod.fst).insertionSort (fun a b => strKeyLe a b = true)).map
      (fun k => k ++ "=" ++ ((qp.lookup k).getD "")))

/-- The signed message: `f"{timestamp}{http_method}{request_path}{sorted_query}"`,
with the wall-clock millisecond reading injected as `nowMillis`. -/
def signMessage (nowMillis : Nat) (http_method request_path : String)
    (qp : List (String × String)) : String :=
  toString nowMillis ++ http_method ++ request_path ++ sortedQuery qp

/-- `generate_signature_headers`, with the clock, Keccak hasher and curve
signer injected: hash the message, reduce mod `K_MODULUS`, sign, and emit
`hex64(r) || hex64(s) || hex64(publicKeyY)` plus the decimal timestamp. -/
def generate_signature_headers (signer : ExternalSigner) (hasher : String → Nat)
    (privateKeyInt nowMillis : Nat) (http_method request_path : String)
    (qp : List (String × String)) : SignedHeaders :=
  let timestamp := toString nowMillis
  let message := signMessage nowMillis http_method request_path qp
  let msg_hash_int := hasher message % K_MODULUS
  let rs := signer.sign msg_hash_int privateKeyInt
  let public_key_y := signer.pubY privateKeyInt
  { signature := hexPad64 rs.1 ++ hexPad64 rs.2 ++ hexPad64 public_key_y
    timestamp := timestamp }

/-! ## WebSocketSession: receive loop, pong replies, keepalive coroutine -/

/-- `send_pong`: the frame `type:"pong", time:<echoed timestamp>`. -/
def send_pong (timestamp : String) : OutFrame :=
  { type := "pong", time := timestamp }

/-- One tick of the `send_ping` coroutine: after sleeping
`ping_interval` seconds it would send `type:"ping", time:<now-millis>`.
Returns the sleep duration together with the frame. -/
def send_ping_tick (st : ClientState) (nowMillis : Nat) : Nat × OutFrame :=
  (st.ping_interval, { type := "ping", time := toString nowMillis })

/-- `handle_message`: a message that fails JSON decoding (`none`) is
logged and skipped; a `ping` frame is answered with one pong and nothing
else; every other frame goes to `process_data`.  Only `JSONDecodeError`
is caught, so a `KeyError` escaping `process_data` escapes here too. -/
def handle_message (st : ClientState) (msg : Option Frame) :
    Except String (ClientState × List OutFrame × List Invocation) :=
  match msg with
  | none => .ok (st, [], [])
  | some f =>
    if f.type = "ping" then
      .ok (st, [send_pong f.time], [])
    else
      match process_data st f with
      | .ok r => .ok (r.1, [], r.2)
      | .error k => .error k

/-- Observable outcome of one session run: final state, all frames sent,
all callback invocations, and the exception (if any) that ended the
receive loop and failed the session. -/
structure SessionResult where
  state : ClientState
  outbound : List OutFrame
  calls : List Invocation
  err : Option String
  deriving Repr

/-- The `while True: message = await websocket.recv(); await
self.handle_message(...)` receive loop, run over a finite inbound trace
(`none` = a message whose JSON decoding fails).  The loop ends when the
trace is exhausted (connection closed) or an exception escapes. -/
def run_receive_loop (st : ClientState) :
    List (Option Frame) → SessionResult
  | [] => { state := st, outbound := [], calls := [], err := none }
  | m :: ms =>
    match handle_message st m with
    | .error k => { state := st, outbound := [], calls := [], err := some k }
    | .ok (st', out, calls) =>
      let r := run_receive_loop st' ms
      { state := r.state, outbound := out ++ r.outbound,
        calls := calls ++ r.calls, err := r.err }

/-- `connect_public_websocket`: after connecting, send one subscribe frame
per requested channel (`subscribe_channels`), then run the receive loop
until the connection ends.  Nothing else is ever awaited or scheduled —
in particular `send_ping` is never started. -/
def connect_public_websocket (st : ClientState) (channels : List OutFrame)
    (inbound : List (Option Frame)) : SessionResult :=
  let r := run_receive_loop st inbound
  { r with outbound := channels ++ r.outbound }

/-- `connect_private_websocket_web` / `connect_private_websocket_app`:
auth material travels in the HTTP handshake (sub-protocol token or
headers), after which the session body is the same receive loop with no
subscribe frames — and again `send_ping` is never started. -/
def connect_private_websocket (st : ClientState)
    (inbound : List (Option Frame)) : SessionResult :=
  run_receive_loop st inbound

/-! ## EventStore push sequences -/

/-- Pushing a sequence of present values into one deque, oldest first:
each push is the `appendleft` performed by `store_data`. -/
def pushSeq (maxlen : Nat) (vs : List String) (q : List String) : List String :=
  vs.foldl (fun acc v => dequeAppendLeft maxlen v acc) q

/-! ## Theorems about the retrying transport -/

/-- When every attempt raises, the loop body entered at counter `attempt`
(with `retries = attempt + d`) makes `d + 1` further attempts, sleeps
`min (base_wait * n) max_wait` for `n = attempt+1, ..., retries`, and
re-raises the last exception. -/
theorem sendLoop_allFail (errs : Nat → String) (bw mw : ℚ) :
    ∀ (d attempt retries : Nat), retries = attempt + d →
    sendLoop (fun n => .failure (errs n)) bw mw retries attempt =
      { result := .error (errs retries), numAttempts := d + 1,
        sleeps := (List.range' (attempt + 1) d).map (fun i => min (bw * (i : ℕ)) mw) } := by
  intro d
  induction d with
  | zero =>
    intro attempt retries h
    subst h
    rw [sendLoop]
    simp
  | succ d ih =>
    intro attempt retries h
    subst h
    rw [sendLoop]
    have h1 : ¬ attempt + 1 > attempt + (d + 1) := by omega
    simp only [h1, dite_false]
    rw [ih (attempt + 1) (attempt + (d + 1)) (by omega)]
    simp [List.range'_succ]

/-- Specialization of `sendLoop_allFail` to a full `send_api_request` run
from attempt 0 with a supported method. -/
theorem send_allFail (errs : Nat → String) (net : Nat → AttemptResult)
    (m : String) (retries : Nat) (bw mw : ℚ)
    (hm : methodSupported m = true) (hnet : ∀ n, net n = .failure (errs n)) :
    send_api_request net m retries bw mw =
      { result := .error (errs retries), numAttempts := retries + 1,
        sleeps := (List.range' 1 retries).map (fun i => min (bw * (i : ℕ)) mw) } := by
  have hfun : attemptOnce net m = fun n => AttemptResult.failure (errs n) := by
    funext n
    simp [attemptOnce, hm, hnet n]
  rw [send_api_request, hfun, sendLoop_allFail errs bw mw retries 0 retries (by omega)]

/-- C3 (confirmed): when every attempt fails with a transport-level error,
a send makes `retries + 1` attempts, the wait before the `n`-th retry
(1-indexed) is `min (base_wait * n) max_wait`, and the final error
surfaces; with `retries = 3`, `base_wait = 1.0`, `max_wait = 5.0` that is
exactly 4 attempts and the wait sequence `[1.0, 2.0, 3.0]`. -/
theorem send_api_request_backoff_c3 (errs : Nat → String) :
    (∀ (retries : Nat) (bw mw : ℚ),
      send_api_request (fun n => .failure (errs n)) "GET" retries bw mw =
        { result := .error (errs retries), numAttempts := retries + 1,
          sleeps := (List.range' 1 retries).map (fun i => min (bw * (i : ℕ)) mw) }) ∧
    send_api_request (fun n => .failure (errs n)) "GET" 3 1 5 =
      { result := .error (errs 3), numAttempts := 4, sleeps := [1, 2, 3] } := by
  constructor
  · intro retries bw mw
    exact send_allFail errs _ "GET" retries bw mw (by decide) (fun n => rfl)
  · rw [send_allFail errs _ "GET" 3 1 5 (by decide) (fun n => rfl)]
    norm_num [List.range']

/-- C1 (code bug): for an HTTP method other than GET/POST the code raises
`ValueError` inside the `try` block, and the blanket `except Exception`
catches it and retries it like a transport failure: the call makes
`retries + 1` attempts with the full backoff sleep sequence before the
`ValueError` finally surfaces — with the default policy, 4 attempts and
sleeps `[1.0, 2.0, 3.0]` — contradicting the claim that it fails
immediately on the first attempt with no retry and no sleep. -/
theorem send_api_request_unsupported_retried_c1 (net : Nat → AttemptResult) :
    (∀ (retries : Nat) (bw mw : ℚ),
      send_api_request net "PUT" retries bw mw =
        { result := .error (unsupportedMsg "PUT"), numAttempts := retries + 1,
          sleeps := (List.range' 1 retries).map (fun i => min (bw * (i : ℕ)) mw) }) ∧
    send_api_request net "PUT" 3 1 5 =
      { result := .error (unsupportedMsg "PUT"), numAttempts := 4,
        sleeps := [1, 2, 3] } := by
  have hm : methodSupported "PUT" = false := by decide
  have hfun : attemptOnce net "PUT" =
      fun n => AttemptResult.failure (unsupportedMsg "PUT") := by
    funext n
    simp [attemptOnce, hm]
  constructor
  · intro retries bw mw
    rw [send_api_request, hfun,
      sendLoop_allFail (fun _ => unsupportedMsg "PUT") bw mw retries 0 retries (by omega)]
  · rw [send_api_request, hfun,
      sendLoop_allFail (fun _ => unsupportedMsg "PUT") 1 5 3 0 3 (by omega)]
    norm_num [List.range']

/-! ## Theorems about the signing message canonicalization -/

theorem charListLe_total : ∀ as bs, charListLe as bs = true ∨ charListLe bs as = true := by
  intro as
  induction as with
  | nil => intro bs; left; rfl
  | cons a as ih =>
    intro bs
    cases bs with
    | nil => right; rfl
    | cons b bs =>
      rcases Nat.lt_trichotomy a.toNat b.toNat with h | h | h
      · left; simp [charListLe, h]
      · rcases ih bs with h' | h'
        · left; simp [charListLe, h, h']
        · right; simp [charListLe, h.symm, h']
      · right; simp [charListLe, h]

theorem charListLe_trans : ∀ as bs cs, charListLe as bs = true →
    charListLe bs cs = true → charListLe as cs = true := by
  intro as
  induction as with
  | nil => intro bs cs _ _; rfl
  | cons a as ih =>
    intro bs cs h1 h2
    cases bs with
    | nil => simp [charListLe] at h1
    | cons b bs =>
      cases cs with
      | nil => simp [charListLe] at h2
      | cons c cs =>
        simp only [charListLe] at h1 h2 ⊢
        by_cases hab : a.toNat < b.toNat <;> by_cases hbc : b.toNat < c.toNat
        · rw [if_pos (by omega : a.toNat < c.toNat)]
        · by_cases hbceq : b.toNat = c.toNat
          · rw [if_pos (by omega : a.toNat < c.toNat)]
          · rw [if_neg hbc, if_neg hbceq] at h2
            simp at h2
        · by_cases habeq : a.toNat = b.toNat
          · rw [if_pos (by omega : a.toNat < c.toNat)]
          · rw [if_neg hab, if_neg habeq] at h1
            simp at h1
        · by_cases habeq : a.toNat = b.toNat
          · by_cases hbceq : b.toNat = c.toNat
            · rw [if_neg hab, if_pos habeq] at h1
              rw [if_neg hbc, if_pos hbceq] at h2
              rw [if_neg (by omega : ¬ a.toNat < c.toNat),
                if_pos (by omega : a.toNat = c.toNat)]
              exact ih bs cs h1 h2
            · rw [if_neg hbc, if_neg hbceq] at h2
              simp at h2
          · rw [if_neg hab, if_neg habeq] at h1
            simp at h1

theorem charListLe_antisymm : ∀ as bs, charListLe as bs = true →
    charListLe bs as = true → as = bs := by
  intro as
  induction as with
  | nil =>
    intro bs _ h2
    cases bs with
    | nil => rfl
    | cons b bs => simp [charListLe] at h2
  | cons a as ih =>
    intro bs h1 h2
    cases bs with
    | nil => simp [charListLe] at h1
    | cons b bs =>
      simp only [charListLe] at h1 h2
      by_cases hab : a.toNat < b.toNat
      · rw [if_neg (by omega : ¬ b.toNat < a.toNat),
          if_neg (by omega : ¬ b.toNat = a.toNat)] at h2
        simp at h2
      · by_cases heq : a.toNat = b.toNat
        · rw [if_neg hab, if_pos heq] at h1
          rw [if_neg (by omega : ¬ b.toNat < a.toNat), if_pos heq.symm] at h2
          have hab' : a = b := Char.eq_of_val_eq (UInt32.ext heq)
          rw [hab', ih bs h1 h2]
        · rw [if_neg hab, if_neg heq] at h1
          simp at h1

instance : IsTotal String (fun a b => strKeyLe a b = true) :=
  ⟨fun a b => charListLe_total a.data b.data⟩

instance : IsTrans String (fun a b => strKeyLe a b = true) :=
  ⟨fun a b c => charListLe_trans a.data b.data c.data⟩

instance : IsAntisymm String (fun a b => strKeyLe a b = true) :=
  ⟨fun a b h1 h2 => by
    have hd : a.data = b.data := charListLe_antisymm _ _ h1 h2
    cases a
    cases b
    exact congrArg String.mk hd⟩

/-- Dict lookup is determined by the key-value mapping alone: reordering
an association list with distinct keys does not change any lookup. -/
theorem lookup_eq_of_perm (k : String) :
    ∀ {l₁ l₂ : List (String × String)}, l₁.Perm l₂ →
      (l₁.map Prod.fst).Nodup → l₁.lookup k = l₂.lookup k := by
  intro l₁ l₂ h
  induction h with
  | nil => intro _; rfl
  | cons a h ih =>
    intro hnd
    simp only [List.map_cons, List.nodup_cons] at hnd
    simp only [List.lookup]
    by_cases hk : k = a.1
    · simp [hk]
    · have : (k == a.1) = false := by simpa using hk
      rw [this]
      exact ih hnd.2
  | swap x y l =>
    intro hnd
    simp only [List.map_cons, List.nodup_cons, List.mem_cons] at hnd
    have hxy : y.1 ≠ x.1 := fun h => hnd.1 (Or.inl h)
    simp only [List.lookup]
    by_cases hky : k = y.1 <;> by_cases hkx : k = x.1
    · exact absurd (hky.symm.trans hkx) hxy
    · have h1 : (k == y.1) = true := by simpa using hky
      have h2 : (k == x.1) = false := by simpa using hkx
      rw [h1, h2]
    · have h1 : (k == y.1) = false := by simpa using hky
      have h2 : (k == x.1) = true := by simpa using hkx
      rw [h1, h2]
    · have h1 : (k == y.1) = false := by simpa using hky
      have h2 : (k == x.1) = false := by simpa using hkx
      rw [h1, h2]
  | trans h1 h2 ih1 ih2 =>
    intro hnd
    exact (ih1 hnd).trans (ih2 (((h1.map Prod.fst).nodup_iff).mp hnd))

/-- `sorted_query` is a function of the key-value mapping only. -/
theorem sortedQuery_eq_of_perm (qp1 qp2 : List (String × String))
    (h : qp1.Perm qp2) (hnd : (qp1.map Prod.fst).Nodup) :
    sortedQuery qp1 = sortedQuery qp2 := by
  unfold sortedQuery
  have hkeys : ((qp1.map Prod.fst).insertionSort (fun a b => strKeyLe a b = true)) =
      ((qp2.map Prod.fst).insertionSort (fun a b => strKeyLe a b = true)) :=
    List.eq_of_perm_of_sorted
      (((List.perm_insertionSort (fun a b => strKeyLe a b = true)
            (qp1.map Prod.fst)).trans (h.map _)).trans
        (List.perm_insertionSort (fun a b => strKeyLe a b = true)
            (qp2.map Prod.fst)).symm)
      (List.sorted_insertionSort _ _) (List.sorted_insertionSort _ _)
  have hfun : (fun k => k ++ "=" ++ ((qp1.lookup k).getD "")) =
      (fun k => k ++ "=" ++ ((qp2.lookup k).getD "")) := by
    funext k
    rw [lookup_eq_of_perm k h hnd]
  rw [hkeys, hfun]

/-- C6 (confirmed): the signed message depends only on the key-value
mapping of the query parameters, never on their insertion order; in
particular the two insertion orders of the two-key map yield the identical
message, which is the timestamp, method and path followed by the keys in
ascending order as `k=v` segments joined by `&` — here `a=1&b=2`. -/
theorem signMessage_canonical_c6 :
    (∀ (now : Nat) (m p : String),
      signMessage now m p [("b", "2"), ("a", "1")] =
        signMessage now m p [("a", "1"), ("b", "2")] ∧
      signMessage now m p [("b", "2"), ("a", "1")] =
        toString now ++ m ++ p ++ "a=1&b=2") ∧
    (∀ (now : Nat) (m p : String) (qp1 qp2 : List (String × String)),
      qp1.Perm qp2 → (qp1.map Prod.fst).Nodup →
      signMessage now m p qp1 = signMessage now m p qp2) := by
  constructor
  · intro now m p
    constructor
    · unfold signMessage
      have : sortedQuery [("b", "2"), ("a", "1")] =
          sortedQuery [("a", "1"), ("b", "2")] := by decide
      rw [this]
    · unfold signMessage
      have : sortedQuery [("b", "2"), ("a", "1")] = "a=1&b=2" := by decide
      rw [this]
  · intro now m p qp1 qp2 hperm hnd
    unfold signMessage
    rw [sortedQuery_eq_of_perm qp1 qp2 hperm hnd]

/-- Witness for C6: instantiated at timestamp 1700000000000, method GET,
path `/api`, and the two concrete insertion orders. -/
theorem signMessage_canonical_c6_witness :
    signMessage 1700000000000 "GET" "/api" [("b", "2"), ("a", "1")] =
      signMessage 1700000000000 "GET" "/api" [("a", "1"), ("b", "2")] ∧
    [("b", "2"), ("a", "1")].Perm [("a", "1"), ("b", "2")] ∧
    ([("b", "2"), ("a", "1")].map (Prod.fst (α := String) (β := String))).Nodup :=
  ⟨(signMessage_canonical_c6.2 1700000000000 "GET" "/api"
      [("b", "2"), ("a", "1")] [("a", "1"), ("b", "2")]
      (List.Perm.swap _ _ _) (by decide)),
   List.Perm.swap _ _ _, by decide⟩

/-! ## Theorems about the signature header shape -/

theorem digitChar_mem_hexCharset (d : Nat) (hd : d < 16) :
    Nat.digitChar d ∈ hexCharset := by
  interval_cases d <;> decide

theorem toDigitsCore_length_le :
    ∀ (fuel n : Nat) (acc : List Char) (k : Nat), 0 < k → n < 16 ^ k →
      (Nat.toDigitsCore 16 fuel n acc).length ≤ k + acc.length := by
  intro fuel
  induction fuel with
  | zero =>
    intro n acc k hk hn
    simp only [Nat.toDigitsCore]
    omega
  | succ fuel ih =>
    intro n acc k hk hn
    by_cases hdiv : n / 16 = 0
    · simp only [Nat.toDigitsCore, hdiv, if_pos, List.length_cons]
      omega
    · have h16 : 16 ≤ n := by
        by_contra hlt
        exact hdiv (Nat.div_eq_of_lt (by omega))
      have hk2 : 2 ≤ k := by
        by_contra hcon
        have hk1 : k = 1 := by omega
        rw [hk1] at hn
        norm_num at hn
        omega
      obtain ⟨k', rfl⟩ : ∃ k', k = k' + 1 := ⟨k - 1, by omega⟩
      have hdivlt : n / 16 < 16 ^ k' := by
        rw [Nat.div_lt_iff_lt_mul (by norm_num)]
        calc n < 16 ^ (k' + 1) := hn
          _ = 16 ^ k' * 16 := by ring
      have hrec := ih (n / 16) (Nat.digitChar (n % 16) :: acc) k' (by omega) hdivlt
      simp only [Nat.toDigitsCore]
      rw [if_neg hdiv]
      simp only [List.length_cons] at hrec
      omega

theorem toDigitsCore_mem_hexCharset :
    ∀ (fuel n : Nat) (acc : List Char), (∀ c ∈ acc, c ∈ hexCharset) →
      ∀ c ∈ Nat.toDigitsCore 16 fuel n acc, c ∈ hexCharset := by
  intro fuel
  induction fuel with
  | zero =>
    intro n acc hacc c hc
    simp only [Nat.toDigitsCore] at hc
    exact hacc c hc
  | succ fuel ih =>
    intro n acc hacc c hc
    have hd : Nat.digitChar (n % 16) ∈ hexCharset :=
      digitChar_mem_hexCharset _ (Nat.mod_lt _ (by norm_num))
    by_cases hdiv : n / 16 = 0
    · simp only [Nat.toDigitsCore, hdiv, if_pos] at hc
      rcases List.mem_cons.mp hc with h | h
      · rw [h]; exact hd
      · exact hacc c h
    · simp only [Nat.toDigitsCore] at hc
      rw [if_neg hdiv] at hc
      refine ih (n / 16) (Nat.digitChar (n % 16) :: acc) ?_ c hc
      intro c' hc'
      rcases List.mem_cons.mp hc' with h | h
      · rw [h]; exact hd
      · exact hacc c' h

theorem hexRepr_length_le (n k : Nat) (hk : 0 < k) (hn : n < 16 ^ k) :
    (hexRepr n).length ≤ k := by
  have h := toDigitsCore_length_le (n + 1) n [] k hk hn
  simpa [hexRepr, Nat.toDigits] using h

theorem hexRepr_mem (n : Nat) : ∀ c ∈ hexRepr n, c ∈ hexCharset := by
  intro c hc
  refine toDigitsCore_mem_hexCharset (n + 1) n [] (by simp) c ?_
  simpa [hexRepr, Nat.toDigits] using hc

theorem hexPad64_length (n : Nat) (hn : n < 16 ^ 64) :
    (hexPad64 n).length = 64 := by
  have h := hexRepr_length_le n 64 (by norm_num) hn
  simp only [hexPad64, String.length, List.length_append, List.length_replicate]
  omega

theorem hexPad64_mem (n : Nat) : ∀ c ∈ (hexPad64 n).data, c ∈ hexCharset := by
  intro c hc
  simp only [hexPad64, List.mem_append, List.mem_replicate] at hc
  rcases hc with h | h
  · rw [h.2]; decide
  · exact hexRepr_mem n c h

/-- C5 (confirmed): `generate_signature_headers` returns a signature that
is exactly the concatenation `hex64(r) || hex64(s) || hex64(publicKeyY)`
with each component zero-padded to 64 lowercase hex digits — 192
hexadecimal characters in total — and a timestamp that is the injected
wall-clock millisecond reading as a decimal string.  The hypotheses
record that the external STARK-curve signer returns field elements below
`16^64` (they are below the 252-bit curve prime). -/
theorem generate_signature_headers_c5 (signer : ExternalSigner)
    (hasher : String → Nat) (pk now : Nat) (m p : String)
    (qp : List (String × String))
    (hr : (signer.sign (hasher (signMessage now m p qp) % K_MODULUS) pk).1 < 16 ^ 64)
    (hs : (signer.sign (hasher (signMessage now m p qp) % K_MODULUS) pk).2 < 16 ^ 64)
    (hy : signer.pubY pk < 16 ^ 64) :
    (generate_signature_headers signer hasher pk now m p qp).signature =
      hexPad64 (signer.sign (hasher (signMessage now m p qp) % K_MODULUS) pk).1 ++
      hexPad64 (signer.sign (hasher (signMessage now m p qp) % K_MODULUS) pk).2 ++
      hexPad64 (signer.pubY pk) ∧
    (generate_signature_headers signer hasher pk now m p qp).signature.length = 192 ∧
    (∀ c ∈ (generate_signature_headers signer hasher pk now m p qp).signature.data,
      c ∈ hexCharset) ∧
    (generate_signature_headers signer hasher pk now m p qp).timestamp = toString now := by
  refine ⟨rfl, ?_, ?_, rfl⟩
  · show (hexPad64 _ ++ hexPad64 _ ++ hexPad64 _).length = 192
    rw [String.length_append, String.length_append,
      hexPad64_length _ hr, hexPad64_length _ hs, hexPad64_length _ hy]
  · intro c hc
    show c ∈ hexCharset
    have hc' : c ∈ (hexPad64 _ ++ hexPad64 _ ++ hexPad64 _).data := hc
    simp only [String.data_append, List.mem_append] at hc'
    rcases hc' with (h | h) | h
    · exact hexPad64_mem _ c h
    · exact hexPad64_mem _ c h
    · exact hexPad64_mem _ c h

/-- Witness for C5: a concrete injected signer, hasher, key and clock. -/
theorem generate_signature_headers_c5_witness :
    ((⟨fun h _ => (h, 7), fun _ => 9⟩ : ExternalSigner).sign
        ((fun _ => 42) (signMessage 1700000000000 "GET" "/api" []) % K_MODULUS) 5).1 < 16 ^ 64 ∧
    (generate_signature_headers ⟨fun h _ => (h, 7), fun _ => 9⟩ (fun _ => 42)
        5 1700000000000 "GET" "/api" []).signature.length = 192 ∧
    (generate_signature_headers ⟨fun h _ => (h, 7), fun _ => 9⟩ (fun _ => 42)
        5 1700000000000 "GET" "/api" []).timestamp = "1700000000000" :=
  ⟨by norm_num [K_MODULUS],
   (generate_signature_headers_c5 ⟨fun h _ => (h, 7), fun _ => 9⟩ (fun _ => 42)
      5 1700000000000 "GET" "/api" [] (by norm_num [K_MODULUS])
      (by norm_num [K_MODULUS]) (by norm_num)).2.1,
   (generate_signature_headers_c5 ⟨fun h _ => (h, 7), fun _ => 9⟩ (fun _ => 42)
      5 1700000000000 "GET" "/api" [] (by norm_num [K_MODULUS])
      (by norm_num [K_MODULUS]) (by norm_num)).2.2.2⟩

/-! ## Theorems about the event store -/

theorem take_append_take {α : Type} (N K : Nat) (hNK : N ≤ K) (l m : List α) :
    List.take N (l ++ List.take K m) = List.take N (l ++ m) := by
  induction l generalizing N with
  | nil => simp [List.take_take, Nat.min_eq_left hNK]
  | cons a l ih =>
    cases N with
    | zero => simp
    | succ n =>
      simp only [List.cons_append, List.take_succ_cons]
      rw [ih n (by omega)]

/-- Repeated `appendleft` into a deque of capacity `N` keeps the `N` most
recent values, newest at the head. -/
theorem pushSeq_eq_take (N : Nat) :
    ∀ (vs q : List String), q.length ≤ N →
      pushSeq N vs q = List.take N (vs.reverse ++ q) := by
  intro vs
  induction vs with
  | nil =>
    intro q hq
    simp [pushSeq, List.take_of_length_le hq]
  | cons v vs ih =>
    intro q hq
    have hstep : pushSeq N (v :: vs) q = pushSeq N vs (dequeAppendLeft N v q) := rfl
    rw [hstep, ih (dequeAppendLeft N v q) (by
      simp only [dequeAppendLeft]
      exact le_trans (List.length_take_le N (v :: q)) le_rfl)]
    simp only [dequeAppendLeft]
    rw [take_append_take N N le_rfl vs.reverse (v :: q)]
    simp [List.reverse_cons, List.append_assoc]

/-- C8 (confirmed): pushing `N + 1` present values into an event-store
sequence of capacity `N` (`max_memory = N`) leaves exactly `N` stored
values, drops the oldest pushed value, and iteration (head first) returns
the most recently pushed value first — the survivors are precisely the
last `N` pushed values in newest-first order. -/
theorem eventstore_eviction_c8 (vs : List String) (N : Nat)
    (h1 : 0 < N) (h2 : vs.length = N + 1) :
    pushSeq N vs [] = (vs.drop 1).reverse ∧
    (pushSeq N vs []).length = N ∧
    (pushSeq N vs []).head? = vs.getLast? := by
  cases vs with
  | nil => simp at h2
  | cons v rest =>
    have hrest : rest.length = N := by simpa using h2
    have hmain : pushSeq N (v :: rest) [] = rest.reverse := by
      rw [pushSeq_eq_take N (v :: rest) [] (by simp)]
      simp only [List.append_nil, List.reverse_cons]
      have hrev : rest.reverse.length = N := by
        rw [List.length_reverse]
        exact hrest
      rw [← hrev, List.take_left]
    refine ⟨by simpa using hmain, by rw [hmain]; simpa using hrest, ?_⟩
    rw [hmain, List.head?_reverse]
    cases rest with
    | nil => simp at hrest; omega
    | cons r rest' => rw [List.getLast?_cons_cons]

/-- Witness for C8: three values into a store of capacity 2. -/
theorem eventstore_eviction_c8_witness :
    0 < 2 ∧ (["a", "b", "c"] : List String).length = 2 + 1 ∧
    pushSeq 2 ["a", "b", "c"] [] = ["c", "b"] ∧
    (pushSeq 2 ["a", "b", "c"] []).length = 2 ∧
    (pushSeq 2 ["a", "b", "c"] []).head? = some "c" := by
  have h := eventstore_eviction_c8 ["a", "b", "c"] 2 (by decide) (by decide)
  exact ⟨by decide, by decide, h.1, h.2.1, h.2.2⟩

/-! ## Theorems about frame routing -/

theorem hasKey_iff_mem (m : List (String × List String)) (k : String) :
    hasKey m k = true ↔ k ∈ m.map Prod.fst := by
  simp [hasKey, List.any_eq_true, List.mem_map]

/-- C9 (confirmed): a `trade-event` frame whose `content.event` is
`Snapshot` is dropped unconditionally: the state (every event-store
sequence and both callback registries) is unchanged and no callback is
invoked, even when persistence is enabled. -/
theorem process_data_snapshot_c9 (st : ClientState) (f : Frame)
    (htype : f.type = "trade-event") (hev : f.event = "Snapshot") :
    process_data st f = .ok (st, []) := by
  simp [process_data, htype, hev]

/-- Witness for C9: a snapshot frame against a persistence-enabled client. -/
theorem process_data_snapshot_c9_witness :
    process_data (initState true 5)
        { type := "trade-event", event := "Snapshot", data := some "x" } =
      .ok (initState true 5, []) :=
  process_data_snapshot_c9 _ _ rfl rfl

/-- C10 (confirmed): a `quote-event` frame invokes the callback registered
under the `quote` key — passing it the full frame — when one is
registered, and otherwise does nothing; in both cases the state is
unchanged, so the frame is never stored in any event-store category,
regardless of the persistence flag. -/
theorem process_data_quote_c10 (st : ClientState) (f : Frame)
    (htype : f.type = "quote-event") :
    (st.channel_callbacks.contains "quote" = true →
      process_data st f = .ok (st, [.channelCb "quote" (.frame f)])) ∧
    (st.channel_callbacks.contains "quote" = false →
      process_data st f = .ok (st, [])) := by
  constructor <;> intro h
  · have h' : "quote" ∈ st.channel_callbacks := by simpa using h
    simp [process_data, htype, h']
  · have h' : "quote" ∉ st.channel_callbacks := by simpa using h
    simp [process_data, htype, h']

/-- Witness for C10: a quote frame against a persistence-enabled client
with a registered quote callback. -/
theorem process_data_quote_c10_witness :
    (register_channel_callback (initState true 5) "quote").channel_callbacks.contains
      "quote" = true ∧
    process_data (register_channel_callback (initState true 5) "quote")
        { type := "quote-event" } =
      .ok (register_channel_callback (initState true 5) "quote",
        [.channelCb "quote" (.frame { type := "quote-event" })]) :=
  ⟨by decide, (process_data_quote_c10 _ _ rfl).1 (by decide)⟩

/-- C4 (confirmed): a `trade-event` frame whose `content.event` is neither
`Snapshot` nor one of the 12 private event kinds fixed at construction,
arriving with persistence enabled and `content.data` present, makes
`process_data` raise `KeyError` out of `store_data` (the private path has
no key-membership guard, unlike the public payload path). -/
theorem process_data_unknown_private_keyerror_c4 (st : ClientState)
    (f : Frame) (d : String)
    (hsave : st.save_memory = true)
    (hkeys : st.memoryPrivate.map Prod.fst = privateEventKinds)
    (htype : f.type = "trade-event")
    (hev : f.event ≠ "Snapshot")
    (hnot : f.event ∉ privateEventKinds)
    (hdata : f.data = some d) :
    process_data st f = .error f.event := by
  have hkey : hasKey st.memoryPrivate f.event = false := by
    by_contra h
    rw [Bool.not_eq_false] at h
    exact hnot (hkeys ▸ (hasKey_iff_mem _ _).mp h)
  simp [process_data, htype, hev, hsave, hdata, store_data, hkey]

/-- Witness for C4: an unrecognized private event kind with a data
payload, against a persistence-enabled freshly constructed client. -/
theorem process_data_unknown_private_keyerror_c4_witness :
    (initState true 100).save_memory = true ∧
    "WEIRD" ∉ privateEventKinds ∧
    process_data (initState true 100)
        { type := "trade-event", event := "WEIRD", data := some "x" } =
      .error "WEIRD" :=
  ⟨rfl, by decide,
   process_data_unknown_private_keyerror_c4 _ _ "x" rfl (by decide) rfl
     (by decide) (by decide) rfl⟩

/-- C7 (confirmed): `classify_channel` sends `ticker.kline.BTC` to
`kline`, `BTC.depth.200` to `depth`, `spot.trades` to `trades` and
`foo.bar` to `unknown` (case-insensitive substring match with priority
kline, depth, trade/trades, else unknown); and a `payload` frame that
classifies to `unknown` leaves the client state — in particular the
public event store — unchanged even when persistence is enabled, because
`unknown` is not a key of `memory["public"]`. -/
theorem classify_and_unknown_not_stored_c7 :
    classify_channel "ticker.kline.BTC" = "kline" ∧
    classify_channel "BTC.depth.200" = "depth" ∧
    classify_channel "spot.trades" = "trades" ∧
    classify_channel "foo.bar" = "unknown" ∧
    (∀ (st : ClientState) (f : Frame), f.type = "payload" →
      classify_channel f.channel = "unknown" →
      st.memoryPublic.map Prod.fst = publicCategories →
      ∃ calls, process_data st f = .ok (st, calls)) := by
  refine ⟨by decide, by decide, by decide, by decide, ?_⟩
  intro st f htype hcat hkeys
  have hkey : hasKey st.memoryPublic "unknown" = false := by
    by_contra h
    rw [Bool.not_eq_false] at h
    have hmem := (hasKey_iff_mem _ _).mp h
    rw [hkeys] at hmem
    simp [publicCategories] at hmem
  refine ⟨if "unknown" ∈ st.channel_callbacks then
    [Invocation.channelCb "unknown" (CallbackArg.payload f.data)] else [], ?_⟩
  simp [process_data, htype, hcat, hkey]

/-- Witness for C7: the concrete unknown channel `foo.bar` against a
persistence-enabled freshly constructed client. -/
theorem classify_and_unknown_not_stored_c7_witness :
    classify_channel "foo.bar" = "unknown" ∧
    (initState true 5).memoryPublic.map Prod.fst = publicCategories ∧
    ∃ calls, process_data (initState true 5)
        { type := "payload", channel := "foo.bar", data := some "x" } =
      .ok (initState true 5, calls) :=
  ⟨by decide, by decide,
   classify_and_unknown_not_stored_c7.2.2.2.2 _ _ rfl (by decide) (by decide)⟩

/-! ## Theorems about the WebSocket session's outbound traffic -/

/-- Every frame the receive loop itself sends is a pong reply: the loop
never produces a keepalive ping. -/
theorem run_receive_loop_outbound_pong (inbound : List (Option Frame)) :
    ∀ (st : ClientState) (g : OutFrame),
      g ∈ (run_receive_loop st inbound).outbound → g.type = "pong" := by
  induction inbound with
  | nil =>
    intro st g hg
    simp [run_receive_loop] at hg
  | cons m ms ih =>
    intro st g hg
    cases m with
    | none =>
      simp only [run_receive_loop, handle_message] at hg
      exact ih st g (by simpa using hg)
    | some f =>
      by_cases hping : f.type = "ping"
      · simp only [run_receive_loop, handle_message, hping, if_pos] at hg
        rcases (by simpa using hg :
            g = send_pong f.time ∨ g ∈ (run_receive_loop st ms).outbound) with h | h
        · rw [h]; rfl
        · exact ih st g h
      · cases hpd : process_data st f with
        | ok r =>
          simp only [run_receive_loop, handle_message, hping, hpd, if_neg] at hg
          exact ih r.1 g (by simpa using hg)
        | error k =>
          simp only [run_receive_loop, handle_message, hping, hpd, if_neg] at hg
          simp at hg

/-- C2 (corrected): no WebSocket session starts the keepalive ticker.  A
public session's outbound frames are only its initial subscribe frames
plus pong replies; a private session's are only pong replies.  The
`send_ping` coroutine — which on each tick would sleep `ping_interval`
seconds (30 by construction) and send a frame of type `ping` carrying the
current milliseconds — exists but is never awaited or scheduled by any
connect method, so no keepalive frame is ever sent. -/
theorem websocket_no_keepalive_c2 :
    (∀ (st : ClientState) (channels : List OutFrame)
        (inbound : List (Option Frame)) (g : OutFrame),
        g ∈ (connect_public_websocket st channels inbound).outbound →
        g ∈ channels ∨ g.type = "pong") ∧
    (∀ (st : ClientState) (inbound : List (Option Frame)) (g : OutFrame),
        g ∈ (connect_private_websocket st inbound).outbound → g.type = "pong") ∧
    (∀ (st : ClientState) (now : Nat),
        send_ping_tick st now = (st.ping_interval,
          { type := "ping", channel := "", time := toString now })) ∧
    (∀ (s : Bool) (m : Nat), (initState s m).ping_interval = 30) := by
  refine ⟨?_, ?_, fun st now => rfl, fun s m => rfl⟩
  · intro st channels inbound g hg
    simp only [connect_public_websocket] at hg
    rcases List.mem_append.mp hg with h | h
    · exact Or.inl h
    · exact Or.inr (run_receive_loop_outbound_pong inbound st g h)
  · intro st inbound g
    exact run_receive_loop_outbound_pong inbound st g

/-- Counterexample to C2 as stated: a complete public session — up long
enough to subscribe, receive its `connected` acknowledgement and process
a market-data frame — sends no frame of type `ping` at any point, whereas
the claim requires an outbound keepalive ping every `pingIntervalSeconds`
for the lifetime of every session. -/
theorem websocket_keepalive_counterexample_c2 :
    ¬ ∃ g ∈ (connect_public_websocket (initState true 100)
        [{ type := "subscribe", channel := "ticker.all" }]
        [some { type := "connected" },
         some { type := "payload", channel := "x.kline", data := some "d" }]).outbound,
      g.type = "ping" := by decide

/-- Witness for C2 (amended): a session that receives a server ping sends
exactly its pong reply, and that reply is covered by the theorem. -/
theorem websocket_no_keepalive_c2_witness :
    send_pong "123" ∈ (connect_public_websocket (initState false 100) []
        [some { type := "ping", time := "123" }]).outbound ∧
    (send_pong "123" ∈ ([] : List OutFrame) ∨ (send_pong "123").type = "pong") :=
  ⟨by decide,
   websocket_no_keepalive_c2.1 (initState false 100) []
     [some { type := "ping", time := "123" }] (send_pong "123") (by decide)⟩

end EdgeX
